import Mathlib

/-!
Verification of the `testy` fluent HTTP test helper.

The helper (package `testy`, file `testy.go`) accumulates request-shaping
state on a `Client` (query parameters, headers, body, optional JSON decode
target), then `Execute` builds a request, feeds it synchronously into the
bound handler, and captures the handler's output into a `Response`.

Modelling conventions:
* Go strings and byte slices are byte sequences; each byte is modelled as a
  `Char` (code point = byte value).  All concrete inputs used below are
  ASCII, where this identification is exact.
* Go maps `url.Values` / `http.Header` (string -> []string) are modelled as
  association lists with at most one entry per key, the invariant the Go
  runtime maintains; lookup of a missing key yields `[]` (a nil slice).
* The standard-library pieces of `net/url` and `net/textproto` whose exact
  behaviour the helper's contract depends on (`ParseQuery`, `QueryEscape`,
  `QueryUnescape`, `Values.Encode`, `CanonicalMIMEHeaderKey`, and
  `net/http`'s method validation in `NewRequest`) are embedded concretely
  from their Go sources.  Two collaborators that the spec declares external
  are left abstract as function parameters: URL syntax parsing
  (`url.Parse`, abstracted to a success predicate `parseURLOk`, since the
  helper only threads the parsed value through to the handler) and the JSON
  codec (`encoding/json.Unmarshal`, abstracted to `dec`).
* `httptest.NewRecorder` plus `recorder.Result()` are collapsed into the
  handler's type: a handler maps a request to the drained recorder result
  (status line, status code, body bytes).  Draining an in-memory recorder
  body cannot fail, so the `ReadAll` panic branch of `Execute` is
  unreachable in the model.
-/

namespace Testy

/-- A Go string / byte slice: a sequence of bytes, one `Char` per byte. -/
abbrev Str := List Char

/-- A Go `url.Values` or `http.Header`: map from string to []string,
modelled as an association list (unique keys). -/
abbrev Values := List (Str × List Str)

/-- Go map read `m[k]`: the value slice for `k`, nil (`[]`) when absent. -/
def vGet : Values → Str → List Str
  | [], _ => []
  | e :: rest, k => if e.1 = k then e.2 else vGet rest k

/-- Go map assignment `m[k] = []string\x7bv\x7d`: the body of
`url.Values.Set` and (after canonicalization by the caller) of
`textproto.MIMEHeader.Set` — replaces all prior values of the key. -/
def vSet : Values → Str → Str → Values
  | [], k, v => [(k, [v])]
  | e :: rest, k, v => if e.1 = k then (k, [v]) :: rest else e :: vSet rest k v

/-- Go `m[k] = append(m[k], v)`: the body of `url.Values.Add` and of the
append loops in `SetQueryParamsFromValues` / `SetQueryString`. -/
def vAdd : Values → Str → Str → Values
  | [], k, v => [(k, [v])]
  | e :: rest, k, v => if e.1 = k then (e.1, e.2 ++ [v]) :: rest else e :: vAdd rest k v

/-- All values listed under key `k` across the entries of an association
list, in entry order (coincides with `vGet` on unique-key lists; used to
state the append lemmas without a uniqueness side condition). -/
def lookupAll : Values → Str → List Str
  | [], _ => []
  | e :: rest, k => (if e.1 = k then e.2 else []) ++ lookupAll rest k

/-- RFC 7230 token bytes: digits, letters, and the fifteen specials
(codes 33, 35, 36, 37, 38, 39, 42, 43, 45, 46, 94, 95, 96, 124, 126).
This is simultaneously `net/textproto`'s `validHeaderFieldByte` table and
the byte case of `net/http`'s `httpguts.IsTokenRune`. -/
def isTokenChar (c : Char) : Bool :=
  let n := c.toNat
  (48 ≤ n && n ≤ 57) || (65 ≤ n && n ≤ 90) || (97 ≤ n && n ≤ 122) ||
    [33, 35, 36, 37, 38, 39, 42, 43, 45, 46, 94, 95, 96, 124, 126].contains n

/-- `net/http` `validMethod`: non-empty and all token bytes. -/
def validMethod (method : Str) : Bool :=
  0 < method.length && method.all isTokenChar

/-- The rewrite loop of `net/textproto` `canonicalMIMEHeaderKey`: uppercase
a letter at the start and after each hyphen, lowercase every other letter;
the flag tracks whether the previous byte was a hyphen (initially true). -/
def canonLoop : Bool → Str → Str
  | _, [] => []
  | upper, c :: rest =>
    let n := c.toNat
    let c' :=
      if upper && (97 ≤ n && n ≤ 122) then Char.ofNat (n - 32)
      else if !upper && (65 ≤ n && n ≤ 90) then Char.ofNat (n + 32)
      else c
    c' :: canonLoop (c' = '-') rest

/-- `net/textproto` `CanonicalMIMEHeaderKey`: canonicalize when every byte
is a valid header-field byte, otherwise return the key unchanged. -/
def canonicalMIMEHeaderKey (s : Str) : Str :=
  if s.all isTokenChar then canonLoop true s else s

/-- `net/url` `shouldEscape(c, encodeQueryComponent)`: everything except
alphanumerics and `-` `_` `.` `~` must be escaped in a query component. -/
def shouldEscapeQuery (c : Char) : Bool :=
  let n := c.toNat
  !((48 ≤ n && n ≤ 57) || (65 ≤ n && n ≤ 90) || (97 ≤ n && n ≤ 122) ||
    c = '-' || c = '_' || c = '.' || c = '~')

/-- Upper-case hex digit of a value below 16 (Go's `upperhex` table). -/
def upperHexDigit (n : Nat) : Char :=
  if n < 10 then Char.ofNat (48 + n) else Char.ofNat (55 + n)

/-- `net/url` `QueryEscape`: space becomes `+`, every other byte that
`shouldEscape` flags becomes `%XX`, the rest are copied. -/
def queryEscape (s : Str) : Str :=
  s.flatMap fun c =>
    if c = ' ' then ['+']
    else if shouldEscapeQuery c then
      ['%', upperHexDigit (c.toNat / 16), upperHexDigit (c.toNat % 16)]
    else [c]

/-- Hex digit test (`net/url` `ishex`). -/
def isHexDigit (c : Char) : Bool :=
  let n := c.toNat
  (48 ≤ n && n ≤ 57) || (97 ≤ n && n ≤ 102) || (65 ≤ n && n ≤ 70)

/-- Hex digit value (`net/url` `unhex`). -/
def unhexDigit (c : Char) : Nat :=
  let n := c.toNat
  if 48 ≤ n && n ≤ 57 then n - 48
  else if 97 ≤ n && n ≤ 102 then n - 87
  else if 65 ≤ n && n ≤ 70 then n - 55
  else 0

/-- `net/url` `QueryUnescape` (`unescape` in mode `encodeQueryComponent`):
`%` must be followed by two hex digits and decodes to that byte, `+`
decodes to space, anything else is copied; a malformed `%` sequence is an
error (`none`).  Go validates in a first pass and rewrites in a second;
fused here into one pass with identical semantics (the first malformed
escape makes the whole call fail). -/
def queryUnescape : Str → Option Str
  | [] => some []
  | c :: rest =>
    if c = '%' then
      match rest with
      | a :: b :: rest2 =>
        if isHexDigit a && isHexDigit b then
          (queryUnescape rest2).map fun t => Char.ofNat (unhexDigit a * 16 + unhexDigit b) :: t
        else none
      | _ => none
    else if c = '+' then (queryUnescape rest).map fun t => ' ' :: t
    else (queryUnescape rest).map fun t => c :: t

/-- `strings.Cut(key, eq-sign)`: the part before the first `=`, and the
part after it (empty when there is no `=`, as Go's Cut returns). -/
def cutEq : Str → Str × Str
  | [] => ([], [])
  | c :: rest =>
    if c = '=' then ([], rest)
    else
      let p := cutEq rest
      (c :: p.1, p.2)

/-- One iteration of `net/url` `parseQuery`'s loop on a `&`-separated
chunk: a semicolon marks an error, an empty chunk is skipped, otherwise
the chunk is cut at the first `=` and both sides are unescaped — an
unescape failure marks an error and skips the pair, success appends the
pair.  The error flag is sticky and later chunks are still processed,
exactly as Go records only the first error but keeps looping. -/
def parseQueryStep (acc : Values × Bool) (key : Str) : Values × Bool :=
  if key.contains ';' then (acc.1, true)
  else if key = [] then acc
  else
    let kv := cutEq key
    match queryUnescape kv.1 with
    | none => (acc.1, true)
    | some k =>
      match queryUnescape kv.2 with
      | none => (acc.1, true)
      | some v => (vAdd acc.1 k v, acc.2)

/-- `net/url` `ParseQuery`: Go's loop `for query != empty : cut at the
first ampersand and process the head` visits exactly the `&`-separated
chunks in order, so it is folded over `splitOn`.  (On the empty string Go
runs zero iterations while `splitOn` yields one empty chunk, which the
step skips — same result.)  Returns the accumulated multimap and the
error flag (`true` = some chunk was malformed). -/
def parseQuery (query : Str) : Values × Bool :=
  (List.splitOn '&' query).foldl parseQueryStep ([], false)

/-- The White_Space runes of Go's `unicode.IsSpace` (with the ASCII fast
path of `strings.TrimSpace` agreeing on bytes below 0x80). -/
def isSpaceChar (c : Char) : Bool :=
  let n := c.toNat
  (9 ≤ n && n ≤ 13) || n = 32 || n = 133 || n = 160 || n = 5760 ||
    (8192 ≤ n && n ≤ 8202) || n = 8232 || n = 8233 || n = 8239 || n = 8287 || n = 12288

/-- `strings.TrimSpace`: drop leading and trailing white space. -/
def trimSpace (s : Str) : Str :=
  ((s.dropWhile isSpaceChar).reverse.dropWhile isSpaceChar).reverse

/-- Byte-wise lexicographic strict order on strings (Go string `<`). -/
def lexLt : Str → Str → Bool
  | [], [] => false
  | [], _ :: _ => true
  | _ :: _, [] => false
  | a :: as, b :: bs => if a = b then lexLt as bs else decide (a.toNat < b.toNat)

/-- Key order used by `url.Values.Encode`'s `sort.Strings(keys)`. -/
abbrev keyLe (e f : Str × List Str) : Prop := lexLt f.1 e.1 = false

/-- `Encode` sorts the map's keys ascending; on a unique-key association
list this is sorting the entries by key. -/
def sortByKey (m : Values) : Values := List.insertionSort keyLe m

/-- One `k=v` fragment of the encoded query: escaped key, `=`, escaped
value — exactly what one inner iteration of `Encode` writes. -/
def segFor (k v : Str) : Str := queryEscape k ++ '=' :: queryEscape v

/-- The fragments `Encode` writes, in order: for each key in sorted order,
one fragment per value in slice order. -/
def encodeSegments (m : Values) : List Str :=
  (sortByKey m).flatMap fun e => e.2.map (segFor e.1)

/-- `url.Values.Encode`: Go writes `&` before every fragment except the
first (the buffer-nonempty test); since every fragment is nonempty this is
exactly interleaving `&` between the fragments.  `Encode` of an empty map
returns the empty string, which `intercalate` of no fragments also does. -/
def encodeValues (m : Values) : Str := List.intercalate ['&'] (encodeSegments m)

/-- A JSON value, as produced by the (external) JSON codec. -/
inductive Json where
  | null : Json
  | bool (b : Bool) : Json
  | num (n : Int) : Json
  | str (s : Str) : Json
  | arr (elems : List Json) : Json
  | obj (fields : List (Str × Json)) : Json

/-- The request `Execute` hands to the handler: method, URL text, header
map, and optional body bytes (`nil` body reader modelled as `none`). -/
structure Request where
  method : Str
  url : Str
  header : Values
  body : Option Str

/-- The drained output of the response-capturing sink
(`httptest` recorder's `Result()` after reading the body): status line,
numeric status code, body bytes. -/
structure SinkResult where
  Status : Str
  StatusCode : Nat
  Body : Str

/-- The handler under test plus the in-memory recorder, collapsed into a
function from the built request to the drained sink output. -/
abbrev Handler := Request → SinkResult

/-- `testy.Client`: the bound handler and the mutable pending-request
state.  `Result` records whether a decode target was registered via
`SetResult` (the target itself lives outside the Client's own state). -/
structure Client where
  handler : Handler
  QueryParam : Values
  FormData : Values
  Header : Values
  Body : Option Str
  Result : Bool

/-- `testy.Response`: transport-level result handle, status line, status
code, drained body bytes, and byte length of the body. -/
structure Response where
  RawResponse : SinkResult
  Status : Str
  StatusCode : Nat
  Body : Str
  Size : Nat

/-- The ways `Execute` can abort instead of returning a `Response`:
dereferencing the nil request after a failed `http.NewRequest`, or the
`panic` on a JSON decode failure.  (The `ReadAll` panic branch cannot fire
for an in-memory recorder body and has no constructor here.)  No
constructor carries an error value: `Execute` has no error return. -/
inductive Panic where
  | nilDeref : Panic
  | decodeFault : Panic

/-- The observable outcome of a successful `Execute`: the client's
post-call state (Go's `Execute` never assigns to any field of `c`, so the
embedding threads the client through unchanged), the returned `Response`,
and the value the decode target was populated with (`none` when no target
was registered). -/
structure ExecOut where
  client : Client
  resp : Response
  decoded : Option Json

/-- `testy.New`: bind a handler, empty maps, no body, no decode target. -/
def New (h : Handler) : Client :=
  { handler := h, QueryParam := [], FormData := [], Header := [], Body := none, Result := false }

/-- `net/http` `NewRequest`: an empty method defaults to GET, an invalid
method or an unparseable URL yields no request (Go: `nil` plus an error —
the error is not modelled because `Execute` discards it), otherwise a
request with an empty header map and the given body. -/
def NewRequest (parseURLOk : Str → Bool) (method url : Str) (body : Option Str) :
    Option Request :=
  let m := if method = [] then ['G', 'E', 'T'] else method
  if validMethod m = false then none
  else if parseURLOk url = false then none
  else some { method := m, url := url, header := [], body := body }

/-- Lines 91–93 of `Execute`: when the pending query map has at least one
key, append `?` and the encoded query to the path by plain `Sprintf`
concatenation; otherwise leave the path alone. -/
def buildURL (c : Client) (url : Str) : Str :=
  if 0 < c.QueryParam.length then url ++ '?' :: encodeValues c.QueryParam else url

/-- Lines 95–100 of `Execute`: body reader over the pending body when set,
`http.NewRequest`, then `request.Header = c.Header` — the pending header
map is attached verbatim, replacing the fresh request's empty map.  When
`NewRequest` fails the request is nil and the header assignment is the
nil dereference, so no request is produced. -/
def buildRequest (parseURLOk : Str → Bool) (c : Client) (method url : Str) : Option Request :=
  match NewRequest parseURLOk method (buildURL c url) c.Body with
  | none => none
  | some r => some { r with header := c.Header }

/-- `testy.Client.Execute`: build the request (aborting with the nil
dereference if construction failed), run the handler, drain the sink,
build the `Response` with `Size` = body length, then — only when a decode
target is registered — decode the body, panicking on decode failure. -/
def Execute (parseURLOk : Str → Bool) (dec : Str → Option Json) (c : Client)
    (method url : Str) : Except Panic ExecOut :=
  match buildRequest parseURLOk c method url with
  | none => Except.error Panic.nilDeref
  | some req =>
    let sink := c.handler req
    let resp : Response :=
      { RawResponse := sink, Status := sink.Status, StatusCode := sink.StatusCode,
        Body := sink.Body, Size := sink.Body.length }
    if c.Result then
      match dec sink.Body with
      | none => Except.error Panic.decodeFault
      | some j => Except.ok { client := c, resp := resp, decoded := some j }
    else Except.ok { client := c, resp := resp, decoded := none }

/-- `testy.Client.SetHeader`: `c.Header.Set(header, value)`, which
canonicalizes the name and replaces all prior values with the one given. -/
def Client.SetHeader (c : Client) (header value : Str) : Client :=
  { c with Header := vSet c.Header (canonicalMIMEHeaderKey header) value }

/-- `testy.Client.SetQueryParam`: `c.QueryParam.Set(param, value)`. -/
def Client.SetQueryParam (c : Client) (param value : Str) : Client :=
  { c with QueryParam := vSet c.QueryParam param value }

/-- The doubly nested append loop shared verbatim by
`SetQueryParamsFromValues` and the success branch of `SetQueryString`:
for each entry, `Add` each of its values under its key. -/
def addAllPairs (m : Values) (params : Values) : Values :=
  params.foldl (fun acc e => e.2.foldl (fun acc2 pv => vAdd acc2 e.1 pv) acc) m

/-- `testy.Client.SetQueryParamsFromValues`. -/
def Client.SetQueryParamsFromValues (c : Client) (params : Values) : Client :=
  { c with QueryParam := addAllPairs c.QueryParam params }

/-- `testy.Client.SetQueryString`: parse the trimmed string; on success
append every decoded pair, on failure do nothing (the `else` branch of the
Go code is empty — the error is swallowed). -/
def Client.SetQueryString (c : Client) (query : Str) : Client :=
  let pr := parseQuery (trimSpace query)
  if pr.2 then c else { c with QueryParam := addAllPairs c.QueryParam pr.1 }

/-- `testy.Client.SetBody`: the Go signature is `SetBody(body []byte)` —
it stores the byte slice, nothing more. -/
def Client.SetBody (c : Client) (body : Str) : Client :=
  { c with Body := some body }

/-- `testy.Client.SetResult`: register a decode target for subsequent
executions. -/
def Client.SetResult (c : Client) : Client :=
  { c with Result := true }

/-- `testy.Response.String`: reinterpret the body bytes as text (an
identity in this byte model). -/
def Response.String (r : Response) : Str := r.Body

/-- The shapes of body the specification says `SetBody` accepts. -/
inductive BodyInput where
  | bytes (b : Str) : BodyInput
  | text (s : Str) : BodyInput
  | structured (j : Json) : BodyInput

/-- The Go `SetBody` lifted to arbitrary body shapes.  Its signature is
`SetBody(body []byte)` and no other overload or variant exists in the
package, so only the raw-bytes shape corresponds to a call that the Go
compiler accepts; the text and structured shapes have no call at all,
modelled as `none`.  (A richer `SetBody(body interface\x7b\x7d)` with
JSON marshalling exists only inside a commented-out block of `testy.go`.) -/
def setBodyOnShape (c : Client) : BodyInput → Option Client
  | BodyInput.bytes b => some (c.SetBody b)
  | BodyInput.text _ => none
  | BodyInput.structured _ => none

/-- The `Response` a successful `Execute` builds from the sink output for
request `req`: definitionally the response literal inside `Execute`. -/
def respOf (c : Client) (req : Request) : Response :=
  { RawResponse := c.handler req, Status := (c.handler req).Status,
    StatusCode := (c.handler req).StatusCode, Body := (c.handler req).Body,
    Size := (c.handler req).Body.length }

/-- A trivial sink output used to instantiate hypotheses concretely. -/
def sink0 : SinkResult := { Status := ['2', '0', '0'], StatusCode := 200, Body := [] }

/-- A handler that answers every request with `sink0`. -/
def handler0 : Handler := fun _ => sink0

/-- A freshly constructed client bound to `handler0`. -/
def client0 : Client := New handler0

/-- A URL-parse oracle that accepts every string. -/
def parseOk0 : Str → Bool := fun _ => true

/-- A JSON decoder that fails on every body. -/
def dec0 : Str → Option Json := fun _ => none

/-- A JSON decoder that decodes every body to `null`. -/
def dec1 : Str → Option Json := fun _ => some Json.null

/-- The byte string GET. -/
def mGET : Str := ['G', 'E', 'T']

/-- The byte string consisting of one slash. -/
def slash : Str := ['/']

/-- The request a fresh client's `Execute` builds for GET /. -/
def reqPlain : Request := { method := mGET, url := slash, header := [], body := none }

/-- The request built after `SetHeader` of value x under a key whose
canonical form is A. -/
def reqHdr : Request := { method := mGET, url := slash, header := [(['A'], [['x']])], body := none }

/-- The request built after `SetBody` of the single byte x. -/
def reqX : Request := { method := mGET, url := slash, header := [], body := some ['x'] }

/-- A pending query map with two values under the key a. -/
def qm0 : Values := [(['a'], [['1'], ['2']])]

/-- `client0` with pending query map `qm0`. -/
def clientQ : Client := { client0 with QueryParam := qm0 }

/-- `client0` with a decode target registered. -/
def clientR : Client := Client.SetResult client0

/-- The outcome of `Execute parseOk0 dec0 client0 mGET slash`. -/
def out0 : ExecOut := { client := client0, resp := respOf client0 reqPlain, decoded := none }

/-- The outcome of `Execute parseOk0 dec1 clientR mGET slash`. -/
def outR : ExecOut := { client := clientR, resp := respOf clientR reqPlain, decoded := some Json.null }

/-- The header name x-username. -/
def xUserLower : Str := ['x', '-', 'u', 's', 'e', 'r', 'n', 'a', 'm', 'e']

/-- The header name X-UserName. -/
def xUserMixed : Str := ['X', '-', 'U', 's', 'e', 'r', 'N', 'a', 'm', 'e']

/-- Lowercase an ASCII letter byte, leave every other byte unchanged.  Two
names differ only in letter case exactly when their `lowerByte` images
coincide pointwise. -/
def lowerByte (c : Char) : Char :=
  if 65 ≤ c.toNat && c.toNat ≤ 90 then Char.ofNat (c.toNat + 32) else c

/-- Uppercase an ASCII letter byte, leave every other byte unchanged. -/
def upperByte (c : Char) : Char :=
  if 97 ≤ c.toNat && c.toNat ≤ 122 then Char.ofNat (c.toNat - 32) else c

/-! Helper lemmas about the map operations and the encoder. -/

/-- Go map assignment leaves exactly the assigned single-element slice. -/
theorem vSet_get_self (m : Values) (k v : Str) : vGet (vSet m k v) k = [v] := by
  induction m with
  | nil => simp [vSet, vGet]
  | cons e rest ih =>
    by_cases h : e.1 = k
    · simp [vSet, vGet, h]
    · simp [vSet, vGet, h, ih]

/-- `Add` appends the new value after the existing slice of its key. -/
theorem vAdd_get_self (m : Values) (k v : Str) : vGet (vAdd m k v) k = vGet m k ++ [v] := by
  induction m with
  | nil => simp [vAdd, vGet]
  | cons e rest ih =>
    by_cases h : e.1 = k
    · simp [vAdd, vGet, h]
    · simp [vAdd, vGet, h, ih]

/-- `Add` under one key leaves every other key's slice unchanged. -/
theorem vAdd_get_other (m : Values) (k k' v : Str) (h : k' ≠ k) :
    vGet (vAdd m k' v) k = vGet m k := by
  induction m with
  | nil => simp [vAdd, vGet, h]
  | cons e rest ih =>
    by_cases he : e.1 = k'
    · simp [vAdd, vGet, he, h, ih]
    · by_cases hek : e.1 = k
      · simp [vAdd, vGet, he, hek, Ne.symm h]
      · simp [vAdd, vGet, he, hek, ih]

/-- Adding a slice of values under one key appends them all, in order. -/
theorem foldl_vAdd_get (vs : List Str) (m : Values) (p k : Str) :
    vGet (vs.foldl (fun acc2 pv => vAdd acc2 p pv) m) k =
      vGet m k ++ if p = k then vs else [] := by
  induction vs generalizing m with
  | nil => simp
  | cons v rest ih =>
    simp only [List.foldl_cons]
    rw [ih]
    by_cases h : p = k
    · subst h
      simp [vAdd_get_self]
    · simp [h, vAdd_get_other _ _ _ _ h]

/-- The nested append loop appends, per key, exactly the values the
parameter list carries for that key, after the existing ones. -/
theorem addAllPairs_get (params : Values) (m : Values) (k : Str) :
    vGet (addAllPairs m params) k = vGet m k ++ lookupAll params k := by
  induction params generalizing m with
  | nil => simp [addAllPairs, lookupAll]
  | cons e rest ih =>
    simp only [addAllPairs, List.foldl_cons] at ih ⊢
    rw [ih, foldl_vAdd_get, lookupAll]
    by_cases h : e.1 = k
    · simp [h]
    · simp [h]

/-- Sorting by key for `Encode` permutes, hence preserves, the entries. -/
theorem mem_sortByKey {e : Str × List Str} {m : Values} (h : e ∈ m) : e ∈ sortByKey m :=
  (List.perm_insertionSort keyLe m).mem_iff.mpr h

/-- The encoder emits an entry's fragments as one contiguous block. -/
theorem encodeSegments_block {k : Str} {vs : List Str} {m : Values} (h : (k, vs) ∈ m) :
    ∃ l1 l2, encodeSegments m = l1 ++ vs.map (segFor k) ++ l2 := by
  obtain ⟨s, t, hst⟩ := List.append_of_mem (mem_sortByKey h)
  refine ⟨s.flatMap (fun e => e.2.map (segFor e.1)),
    t.flatMap (fun e => e.2.map (segFor e.1)), ?_⟩
  simp [encodeSegments, hst, List.flatMap_append, List.append_assoc]

/-- Every value of every entry appears among the encoder's fragments. -/
theorem segFor_mem {k v : Str} {vs : List Str} {m : Values} (h : (k, vs) ∈ m) (hv : v ∈ vs) :
    segFor k v ∈ encodeSegments m :=
  List.mem_flatMap.mpr ⟨(k, vs), mem_sortByKey h, List.mem_map_of_mem _ hv⟩

/-! Helper lemmas computing `Execute` forward on each complete case split,
and the inversion of a successful run. -/

/-- A failed request construction makes `Execute` hit the nil dereference. -/
theorem execute_build_none (parseURLOk : Str → Bool) (dec : Str → Option Json) (c : Client)
    (method url : Str) (h : buildRequest parseURLOk c method url = none) :
    Execute parseURLOk dec c method url = Except.error Panic.nilDeref := by
  unfold Execute
  rw [h]

/-- With no decode target, `Execute` returns the sink-built response and
performs no decoding. -/
theorem execute_ok_noresult (parseURLOk : Str → Bool) (dec : Str → Option Json) (c : Client)
    (method url : Str) (req : Request)
    (hbr : buildRequest parseURLOk c method url = some req) (hres : c.Result = false) :
    Execute parseURLOk dec c method url =
      Except.ok { client := c, resp := respOf c req, decoded := none } := by
  unfold Execute
  rw [hbr]
  simp [hres, respOf]

/-- With a decode target and a decodable body, `Execute` returns the
response and the decoded value. -/
theorem execute_ok_result (parseURLOk : Str → Bool) (dec : Str → Option Json) (c : Client)
    (method url : Str) (req : Request) (j : Json)
    (hbr : buildRequest parseURLOk c method url = some req) (hres : c.Result = true)
    (hdec : dec (c.handler req).Body = some j) :
    Execute parseURLOk dec c method url =
      Except.ok { client := c, resp := respOf c req, decoded := some j } := by
  unfold Execute
  rw [hbr]
  simp [hres, hdec, respOf]

/-- With a decode target and an undecodable body, `Execute` panics. -/
theorem execute_decode_fault (parseURLOk : Str → Bool) (dec : Str → Option Json) (c : Client)
    (method url : Str) (req : Request)
    (hbr : buildRequest parseURLOk c method url = some req) (hres : c.Result = true)
    (hdec : dec (c.handler req).Body = none) :
    Execute parseURLOk dec c method url = Except.error Panic.decodeFault := by
  unfold Execute
  rw [hbr]
  simp [hres, hdec]

/-- Inversion of a successful `Execute`: the request was built, the client
state is returned untouched, the response is the sink-built one, and the
decoded value is the decoder's output exactly when a target was set. -/
theorem execute_ok_inv (parseURLOk : Str → Bool) (dec : Str → Option Json) (c : Client)
    (method url : Str) (out : ExecOut)
    (h : Execute parseURLOk dec c method url = Except.ok out) :
    ∃ req, buildRequest parseURLOk c method url = some req ∧
      out.client = c ∧ out.resp = respOf c req ∧
      out.decoded = (if c.Result then dec (c.handler req).Body else none) ∧
      (c.Result = true → dec (c.handler req).Body ≠ none) := by
  cases hbr : buildRequest parseURLOk c method url with
  | none =>
    rw [execute_build_none parseURLOk dec c method url hbr] at h
    exact Except.noConfusion h
  | some req =>
    refine ⟨req, rfl, ?_⟩
    cases hres : c.Result with
    | false =>
      rw [execute_ok_noresult parseURLOk dec c method url req hbr hres] at h
      injection h with h'
      subst h'
      simp
    | true =>
      cases hdec : dec (c.handler req).Body with
      | none =>
        rw [execute_decode_fault parseURLOk dec c method url req hbr hres hdec] at h
        exact Except.noConfusion h
      | some j =>
        rw [execute_ok_result parseURLOk dec c method url req j hbr hres hdec] at h
        injection h with h'
        subst h'
        simp [hdec]

/-- Inversion of a successful `NewRequest`: the produced request carries
the given URL and body and a fresh empty header map. -/
theorem NewRequest_inv (parseURLOk : Str → Bool) (method url : Str) (b : Option Str) (r : Request)
    (h : NewRequest parseURLOk method url b = some r) :
    r.url = url ∧ r.body = b ∧ r.header = [] := by
  simp only [NewRequest] at h
  split at h
  all_goals try split at h
  all_goals try split at h
  all_goals first
    | exact Option.noConfusion h
    | (injection h with h3; rw [← h3]; exact ⟨rfl, rfl, rfl⟩)

/-- Inversion of a successful request construction: the header map is the
client's pending one, the body is the client's pending body, and the URL
is the query-extended path. -/
theorem buildRequest_inv (parseURLOk : Str → Bool) (c : Client) (method url : Str) (r : Request)
    (h : buildRequest parseURLOk c method url = some r) :
    r.header = c.Header ∧ r.body = c.Body ∧ r.url = buildURL c url := by
  unfold buildRequest at h
  cases hnr : NewRequest parseURLOk method (buildURL c url) c.Body with
  | none =>
    rw [hnr] at h
    exact Option.noConfusion h
  | some r0 =>
    rw [hnr] at h
    have h' : some { r0 with header := c.Header } = some r := h
    injection h' with h''
    subst h''
    obtain ⟨h1, h2, _⟩ := NewRequest_inv parseURLOk method (buildURL c url) c.Body r0 hnr
    exact ⟨rfl, h2, h1⟩

/-! Helper lemmas about header-key canonicalization and letter case. -/

/-- Reading back the code point of a `Char.ofNat` at a valid value. -/
theorem toNat_ofNat_valid (n : Nat) (h : n.isValidChar) : (Char.ofNat n).toNat = n := by
  rw [Char.ofNat, dif_pos h]
  simp [Char.ofNatAux, Char.toNat, UInt32.ofNat', UInt32.toNat, BitVec.toNat_ofNatLt]

/-- Uppercasing a byte is insensitive to first lowercasing it. -/
theorem upperByte_lowerByte (c : Char) : upperByte (lowerByte c) = upperByte c := by
  unfold lowerByte
  by_cases h : (65 ≤ c.toNat && c.toNat ≤ 90) = true
  · rw [if_pos h]
    simp only [Bool.and_eq_true, decide_eq_true_eq] at h
    have hv : (c.toNat + 32).isValidChar := Or.inl (by omega)
    have ht : (Char.ofNat (c.toNat + 32)).toNat = c.toNat + 32 := toNat_ofNat_valid _ hv
    unfold upperByte
    rw [ht]
    rw [if_pos (by simp only [Bool.and_eq_true, decide_eq_true_eq]; omega)]
    rw [if_neg (by simp only [Bool.and_eq_true, decide_eq_true_eq]; omega)]
    have h32 : c.toNat + 32 - 32 = c.toNat := by omega
    rw [h32, Char.ofNat_toNat]
  · rw [if_neg h]

/-- One step of the canonicalization loop: at an upper position the byte
is uppercased, elsewhere lowercased, and the next flag tracks a hyphen. -/
theorem canonLoop_cons (u : Bool) (c : Char) (rest : Str) :
    canonLoop u (c :: rest) =
      (if u then upperByte c else lowerByte c) ::
        canonLoop ((if u then upperByte c else lowerByte c) = '-') rest := by
  cases u
  · simp [canonLoop, lowerByte]
  · simp [canonLoop, upperByte]

/-- Bytes equal up to letter case canonicalize to the same byte at every
position kind. -/
theorem canonChar_lower_eq (u : Bool) (a b : Char) (hab : lowerByte a = lowerByte b) :
    (if u then upperByte a else lowerByte a) = if u then upperByte b else lowerByte b := by
  cases u
  · simpa using hab
  · simp only [if_true]
    rw [← upperByte_lowerByte a, ← upperByte_lowerByte b, hab]

/-- The canonicalization loop identifies names that differ only in letter
case. -/
theorem canonLoop_respects_case (u : Bool) (n1 n2 : Str)
    (h : n1.map lowerByte = n2.map lowerByte) : canonLoop u n1 = canonLoop u n2 := by
  induction n1 generalizing u n2 with
  | nil =>
    cases n2 with
    | nil => rfl
    | cons b bs => exact absurd h (by simp)
  | cons a as ih =>
    cases n2 with
    | nil => exact absurd h (by simp)
    | cons b bs =>
      simp only [List.map_cons, List.cons.injEq] at h
      rw [canonLoop_cons, canonLoop_cons, canonChar_lower_eq u a b h.1, ih _ bs h.2]

/-! The claims. -/

/-- Claim C1, counterexample: the claim says a structured value passed to
`SetBody` — here the mapping with a mapped to 1 — is serialized to JSON
and sent as the request body.  The package's `SetBody` has the signature
`SetBody(body []byte)` and no variant accepting any other shape, so the
structured mapping admits no `SetBody` call at all (the lift yields
`none`): no JSON-encoded body is produced for it. -/
theorem setBody_structured_rejected :
    setBodyOnShape client0 (BodyInput.structured (Json.obj [(['a'], Json.num 1)])) = none := rfl

/-- Claim C1, amended: `SetBody` accepts only raw bytes; they are stored
verbatim as the pending body, the raw-bytes shape is the only accepted
one, and the request `Execute` builds carries exactly those bytes. -/
theorem setBody_bytes_verbatim (c : Client) (b : Str) (parseURLOk : Str → Bool)
    (method url : Str) :
    (c.SetBody b).Body = some b ∧
    setBodyOnShape c (BodyInput.bytes b) = some (c.SetBody b) ∧
    (∀ r, buildRequest parseURLOk (c.SetBody b) method url = some r → r.body = some b) := by
  refine ⟨rfl, rfl, ?_⟩
  intro r hr
  exact (buildRequest_inv parseURLOk (c.SetBody b) method url r hr).2.1

/-- Witness for C1's amended theorem at the raw byte string x. -/
theorem setBody_bytes_verbatim_witness :
    (client0.SetBody ['x']).Body = some ['x'] ∧ reqX.body = some ['x'] :=
  ⟨(setBody_bytes_verbatim client0 ['x'] parseOk0 mGET slash).1,
   (setBody_bytes_verbatim client0 ['x'] parseOk0 mGET slash).2.2 reqX rfl⟩

/-- Claim C2: whenever parsing the trimmed query string fails,
`SetQueryString` is a no-op — the client, pending query state included, is
returned exactly unchanged, and no fault is raised (the function is total
and returns the same `Client`). -/
theorem setQueryString_malformed_noop (c : Client) (q : Str)
    (h : (parseQuery (trimSpace q)).2 = true) : c.SetQueryString q = c := by
  simp [Client.SetQueryString, h]

/-- Witness for C2 at the malformed query string with an unbalanced
percent escape. -/
theorem setQueryString_malformed_noop_witness :
    (parseQuery (trimSpace ['%', 'z', 'z'])).2 = true ∧
      client0.SetQueryString ['%', 'z', 'z'] = client0 :=
  ⟨by decide, setQueryString_malformed_noop client0 ['%', 'z', 'z'] (by decide)⟩

/-- Claim C3: `Set`-style operations replace all prior values of a key —
after any `SetHeader` the canonical entry holds exactly the value just
set, the request `Execute` builds carries the pending header map verbatim,
and a second `SetQueryParam` on the same key leaves exactly the one last
value. -/
theorem set_replaces_prior_values (c : Client) (n v k v1 v2 : Str)
    (parseURLOk : Str → Bool) (method url : Str) :
    vGet (c.SetHeader n v).Header (canonicalMIMEHeaderKey n) = [v] ∧
    (∀ r, buildRequest parseURLOk (c.SetHeader n v) method url = some r →
      vGet r.header (canonicalMIMEHeaderKey n) = [v]) ∧
    vGet ((c.SetQueryParam k v1).SetQueryParam k v2).QueryParam k = [v2] := by
  refine ⟨?_, ?_, ?_⟩
  · simp [Client.SetHeader, vSet_get_self]
  · intro r hr
    rw [(buildRequest_inv parseURLOk (c.SetHeader n v) method url r hr).1]
    simp [Client.SetHeader, vSet_get_self]
  · simp [Client.SetQueryParam, vSet_get_self]

/-- Witness for C3: last-set header value a -> x survives into the built
request, and the second query value 2 replaces 1. -/
theorem set_replaces_prior_values_witness :
    vGet (client0.SetHeader ['a'] ['x']).Header (canonicalMIMEHeaderKey ['a']) = [['x']] ∧
    vGet reqHdr.header (canonicalMIMEHeaderKey ['a']) = [['x']] ∧
    vGet ((client0.SetQueryParam ['a'] ['1']).SetQueryParam ['a'] ['2']).QueryParam ['a']
      = [['2']] :=
  ⟨(set_replaces_prior_values client0 ['a'] ['x'] ['a'] ['1'] ['2'] parseOk0 mGET slash).1,
   (set_replaces_prior_values client0 ['a'] ['x'] ['a'] ['1'] ['2'] parseOk0 mGET slash).2.1
     reqHdr rfl,
   (set_replaces_prior_values client0 ['a'] ['x'] ['a'] ['1'] ['2'] parseOk0 mGET slash).2.2⟩

/-- Claim C4: `SetQueryParamsFromValues` (and a well-formed
`SetQueryString`) appends every (key, value) pair to the pending query
set, never replacing — the old values of each key stay, in order, before
the added ones — and the encoded query string of the path `Execute`
builds contains every pair: each entry's values appear as a contiguous
block of escaped key=value fragments, every single pair appears as a
fragment, and the path is the `?`-joined interleaving of those fragments. -/
theorem query_params_appended_and_encoded (c : Client) (params : Values) (k v : Str)
    (vs : List Str) (q u : Str) :
    vGet (c.SetQueryParamsFromValues params).QueryParam k
        = vGet c.QueryParam k ++ lookupAll params k ∧
    ((parseQuery (trimSpace q)).2 = false →
      vGet (c.SetQueryString q).QueryParam k
        = vGet c.QueryParam k ++ lookupAll (parseQuery (trimSpace q)).1 k) ∧
    ((k, vs) ∈ c.QueryParam →
      ∃ l1 l2, encodeSegments c.QueryParam = l1 ++ vs.map (segFor k) ++ l2) ∧
    ((k, vs) ∈ c.QueryParam → v ∈ vs → segFor k v ∈ encodeSegments c.QueryParam) ∧
    (0 < c.QueryParam.length →
      buildURL c u = u ++ '?' :: List.intercalate ['&'] (encodeSegments c.QueryParam)) := by
  refine ⟨?_, ?_, ?_, ?_, ?_⟩
  · simp [Client.SetQueryParamsFromValues, addAllPairs_get]
  · intro h
    simp [Client.SetQueryString, h, addAllPairs_get]
  · exact encodeSegments_block
  · exact segFor_mem
  · intro h
    simp [buildURL, h, encodeValues]

/-- Witness for C4: appending 1 and 2 under key a to a fresh client, the
fragment a=1 among the encoded fragments, and the concrete path built
from the pending set holding a -> [1, 2]. -/
theorem query_params_appended_and_encoded_witness :
    vGet (client0.SetQueryParamsFromValues qm0).QueryParam ['a'] = [['1'], ['2']] ∧
    segFor ['a'] ['1'] ∈ encodeSegments qm0 ∧
    buildURL clientQ slash = ['/', '?', 'a', '=', '1', '&', 'a', '=', '2'] :=
  ⟨((query_params_appended_and_encoded client0 qm0 ['a'] ['1'] [['1'], ['2']] [] slash).1).trans
     (by decide),
   (query_params_appended_and_encoded clientQ qm0 ['a'] ['1'] [['1'], ['2']] [] slash).2.2.2.1
     (by decide) (by decide),
   ((query_params_appended_and_encoded clientQ qm0 ['a'] ['1'] [['1'], ['2']] [] slash).2.2.2.2
     (by decide)).trans (by decide)⟩

/-- Claim C5: `Execute` appends the `?`-prefixed percent-encoded pending
query to the path by plain concatenation exactly when the pending set is
non-empty (so an existing query component of the path is never merged,
only concatenated after), and leaves the path unchanged when the pending
set is empty. -/
theorem execute_query_concatenation (c : Client) (u : Str) :
    (0 < c.QueryParam.length → buildURL c u = u ++ '?' :: encodeValues c.QueryParam) ∧
    (c.QueryParam.length = 0 → buildURL c u = u) := by
  constructor
  · intro h
    simp [buildURL, h]
  · intro h
    simp [buildURL, h]

/-- Witness for C5: the non-empty pending set `qm0` is concatenated after
the path, the empty pending set leaves the path alone. -/
theorem execute_query_concatenation_witness :
    buildURL clientQ slash = slash ++ '?' :: encodeValues qm0 ∧
    buildURL client0 slash = slash :=
  ⟨(execute_query_concatenation clientQ slash).1 (by decide),
   (execute_query_concatenation client0 slash).2 rfl⟩

/-- Claim C6: a successful `Execute` leaves the client's pending-request
state — query map, header map, body, decode target — exactly as it was,
so configuration persists across executions. -/
theorem execute_preserves_client_state (parseURLOk : Str → Bool) (dec : Str → Option Json)
    (c : Client) (method url : Str) (out : ExecOut)
    (h : Execute parseURLOk dec c method url = Except.ok out) :
    out.client.QueryParam = c.QueryParam ∧ out.client.Header = c.Header ∧
      out.client.Body = c.Body ∧ out.client.Result = c.Result ∧ out.client = c := by
  obtain ⟨req, _, hcl, _, _, _⟩ := execute_ok_inv parseURLOk dec c method url out h
  rw [hcl]
  exact ⟨rfl, rfl, rfl, rfl, rfl⟩

/-- Witness for C6 at a concrete successful execution of a fresh client. -/
theorem execute_preserves_client_state_witness :
    out0.client.QueryParam = client0.QueryParam ∧ out0.client = client0 :=
  ⟨(execute_preserves_client_state parseOk0 dec0 client0 mGET slash out0 rfl).1,
   (execute_preserves_client_state parseOk0 dec0 client0 mGET slash out0 rfl).2.2.2.2⟩

/-- Claim C7: with a decode target registered, every successful execution
populates the target with exactly the decoder's output on the drained
response body (and that output exists); an undecodable body aborts the
execution with the decode panic, returning no `Response`; with no target
registered the decoder is never consulted — the outcome is identical for
any two decoders and nothing is decoded. -/
theorem execute_decodes_result (parseURLOk : Str → Bool) (dec dec' : Str → Option Json)
    (c : Client) (method url : Str) :
    (c.Result = true → ∀ out, Execute parseURLOk dec c method url = Except.ok out →
        out.decoded = dec out.resp.Body ∧ out.decoded ≠ none) ∧
    (c.Result = true → ∀ req, buildRequest parseURLOk c method url = some req →
        dec (c.handler req).Body = none →
        Execute parseURLOk dec c method url = Except.error Panic.decodeFault) ∧
    (c.Result = false →
        Execute parseURLOk dec c method url = Execute parseURLOk dec' c method url ∧
        (∀ out, Execute parseURLOk dec c method url = Except.ok out → out.decoded = none)) := by
  refine ⟨?_, ?_, ?_⟩
  · intro hres out h
    obtain ⟨req, hbr, hcl, hresp, hdec, hne⟩ := execute_ok_inv parseURLOk dec c method url out h
    rw [hresp, hdec, hres]
    refine ⟨?_, ?_⟩
    · simp [respOf]
    · simp only [if_true]
      exact hne hres
  · intro hres req hbr hdec
    exact execute_decode_fault parseURLOk dec c method url req hbr hres hdec
  · intro hres
    constructor
    · cases hbr : buildRequest parseURLOk c method url with
      | none =>
        rw [execute_build_none parseURLOk dec c method url hbr,
          execute_build_none parseURLOk dec' c method url hbr]
      | some req =>
        rw [execute_ok_noresult parseURLOk dec c method url req hbr hres,
          execute_ok_noresult parseURLOk dec' c method url req hbr hres]
    · intro out h
      obtain ⟨req, hbr, hcl, hresp, hdec, hne⟩ := execute_ok_inv parseURLOk dec c method url out h
      rw [hdec, hres]
      simp

/-- Witness for C7: a registered target with an always-failing decoder
panics; with a decoder yielding null the outcome's decoded value is the
decoder's output on the body; with no target two different decoders give
the same outcome. -/
theorem execute_decodes_result_witness :
    Execute parseOk0 dec0 clientR mGET slash = Except.error Panic.decodeFault ∧
    (outR.decoded = dec1 outR.resp.Body ∧ outR.decoded ≠ none) ∧
    Execute parseOk0 dec0 client0 mGET slash = Execute parseOk0 dec1 client0 mGET slash :=
  ⟨(execute_decodes_result parseOk0 dec0 dec1 clientR mGET slash).2.1 rfl reqPlain rfl rfl,
   (execute_decodes_result parseOk0 dec1 dec0 clientR mGET slash).1 rfl outR rfl,
   ((execute_decodes_result parseOk0 dec0 dec1 client0 mGET slash).2.2 rfl).1⟩

/-- Claim C8: every `Response` a successful `Execute` returns is built
from the sink output for the request it built: status line, numeric
status code, drained body bytes, the raw result handle, and a size equal
to the byte length of the drained body. -/
theorem response_from_sink (parseURLOk : Str → Bool) (dec : Str → Option Json) (c : Client)
    (method url : Str) (out : ExecOut) (req : Request)
    (h : Execute parseURLOk dec c method url = Except.ok out)
    (hbr : buildRequest parseURLOk c method url = some req) :
    out.resp.Status = (c.handler req).Status ∧
    out.resp.StatusCode = (c.handler req).StatusCode ∧
    out.resp.Body = (c.handler req).Body ∧
    out.resp.RawResponse = c.handler req ∧
    out.resp.Size = out.resp.Body.length := by
  obtain ⟨req', hbr', hcl, hresp, hdec, hne⟩ := execute_ok_inv parseURLOk dec c method url out h
  rw [hbr] at hbr'
  injection hbr' with hreq
  subst hreq
  rw [hresp]
  exact ⟨rfl, rfl, rfl, rfl, rfl⟩

/-- Witness for C8 at a concrete execution against `handler0`. -/
theorem response_from_sink_witness :
    out0.resp.Status = (client0.handler reqPlain).Status ∧
    out0.resp.StatusCode = (client0.handler reqPlain).StatusCode ∧
    out0.resp.Body = (client0.handler reqPlain).Body ∧
    out0.resp.RawResponse = client0.handler reqPlain ∧
    out0.resp.Size = out0.resp.Body.length :=
  response_from_sink parseOk0 dec0 client0 mGET slash out0 reqPlain rfl rfl

/-- Claim C9: `Execute` discards the request-construction error — for the
method GE T (invalid character) or for any path the URL parser rejects,
`http.NewRequest` yields no request, and `Execute` aborts with the
nil-pointer dereference panic; its result type carries no construction
error at all, so no such error can be surfaced. -/
theorem execute_nil_request_panics (parseURLOk : Str → Bool) (dec : Str → Option Json)
    (c : Client) (u : Str) :
    validMethod ['G', 'E', ' ', 'T'] = false ∧
    Execute parseURLOk dec c ['G', 'E', ' ', 'T'] u = Except.error Panic.nilDeref ∧
    Execute (fun _ => false) dec c mGET u = Except.error Panic.nilDeref :=
  ⟨by decide, rfl, rfl⟩

/-- Claim C10, counterexample: the claim's universal — every pair of
names differing only in letter case addresses the same header entry — is
false.  The names a b and A B differ only in letter case, but each
contains a space, which is not a valid header-field byte, so
`CanonicalMIMEHeaderKey` returns both unchanged and they remain distinct
keys: after `SetHeader` of 1 under a b and then of 2 under A B, the entry
of a b still holds 1 — the later call replaced nothing. -/
theorem setHeader_case_pair_not_replaced :
    ['a', ' ', 'b'].map lowerByte = ['A', ' ', 'B'].map lowerByte ∧
    canonicalMIMEHeaderKey ['a', ' ', 'b'] ≠ canonicalMIMEHeaderKey ['A', ' ', 'B'] ∧
    vGet ((client0.SetHeader ['a', ' ', 'b'] ['1']).SetHeader ['A', ' ', 'B'] ['2']).Header
      (canonicalMIMEHeaderKey ['a', ' ', 'b']) = [['1']] :=
  ⟨by decide, by decide, by decide⟩

/-- Claim C10, amended: `SetHeader` canonicalizes the header name before
storing, but only names made entirely of valid header-field (token) bytes
are canonicalized — for every two such names differing only in letter
case (equal after byte-wise lowercasing), both canonicalize to the same
key, so the calls address the same entry and the later call replaces the
value stored by the earlier one.  Names containing a non-token byte are
stored under the name unchanged. -/
theorem setHeader_canonicalizes_name (c : Client) (v1 v2 : Str) (n1 n2 : Str)
    (h1 : n1.all isTokenChar = true) (h2 : n2.all isTokenChar = true)
    (hcase : n1.map lowerByte = n2.map lowerByte) :
    canonicalMIMEHeaderKey n1 = canonicalMIMEHeaderKey n2 ∧
    vGet ((c.SetHeader n1 v1).SetHeader n2 v2).Header (canonicalMIMEHeaderKey n1) = [v2] := by
  have hk : canonicalMIMEHeaderKey n1 = canonicalMIMEHeaderKey n2 := by
    unfold canonicalMIMEHeaderKey
    rw [if_pos h1, if_pos h2]
    exact canonLoop_respects_case true n1 n2 hcase
  refine ⟨hk, ?_⟩
  simp only [Client.SetHeader]
  rw [hk]
  exact vSet_get_self _ _ _

/-- Witness for C10's amended theorem at the token-valid case-differing
pair x-username / X-UserName (both canonicalize to X-Username). -/
theorem setHeader_canonicalizes_name_witness :
    canonicalMIMEHeaderKey xUserLower = canonicalMIMEHeaderKey xUserMixed ∧
    vGet ((client0.SetHeader xUserLower ['1']).SetHeader xUserMixed ['2']).Header
      (canonicalMIMEHeaderKey xUserLower) = [['2']] :=
  setHeader_canonicalizes_name client0 ['1'] ['2'] xUserLower xUserMixed
    (by decide) (by decide) (by decide)

end Testy
